import Mathlib

/-!
Verification development for the Camlistore search handler
(`pkg/search/handler.go` of the `camlistore_namedsearch` tree).

The Go source is shallowly embedded: pure helpers become Lean functions,
stateful operations (the named-alias pipeline) become explicit state
passing over a `NamedState` record, fallible operations return `Except`,
and the external collaborators (index scans, describe, the query parser,
the Go standard library sort) become explicit parameters or definitions
modelled from their documented contracts, each marked as such.
-/

namespace Camli

/-- A blob reference (`blob.Ref`). Content-addressed: a content blob's ref
is determined by its text. `zero` is the invalid zero value. `perma n` is
the ref of the n-th signed permanode blob created by the handler (each
permanode blob contains a fresh random nonce, so each creation yields a
distinct ref). `blob n` stands for any other blob (e.g. a public key). -/
inductive BlobRef where
  | zero
  | content (s : String)
  | perma (n : Nat)
  | blob (n : Nat)
deriving DecidableEq, Repr

/-- Embeds `blob.Ref.Valid`: the zero value is invalid, everything else is valid. -/
def BlobRef.valid : BlobRef → Bool
  | .zero => false
  | _ => true

/-- An attribute / claim value. The Go code stores strings; a value that is
the string form of a blob ref is modelled as `.ref b` (so `blob.Parse`
succeeds exactly on it), any other string as `.plain s`. -/
inductive AVal where
  | plain (s : String)
  | ref (b : BlobRef)
deriving DecidableEq, Repr

/-- Embeds `blob.Parse` on an attribute value: succeeds iff the string is the
string form of a valid blob ref. -/
def parseRef : AVal → Option BlobRef
  | .ref b => if b.valid then some b else none
  | .plain _ => none

/-! ## QueryGateway: parameter sanitization (handler.go lines 45-47, 226-232, 521-535) -/

def maxResults : Int := 1000

def defaultNumResults : Int := 50

/-- Embeds `sanitizeNumResults` (handler.go 227-232): a requested result count
`n ≤ 0` or `n > maxResults` is replaced by the default of 50. -/
def sanitizeNumResults (n : Int) : Int :=
  if n ≤ 0 || n > maxResults then defaultNumResults else n

def minThumbSize : Int := 25
def defThumbSize : Int := 50
def maxThumbSize : Int := 800

/-- Embeds `thumbnailSizeStr` (handler.go 527-535): empty means no thumbnails;
a value inside [25,800] passes through; anything else gives the default.
(`strconv.Atoi` failure is modelled by the caller passing `none`.) -/
def thumbnailSizeStr (s : Option Int) : Int :=
  match s with
  | none => 0
  | some i => if minThumbSize ≤ i && i ≤ maxThumbSize then i else defThumbSize

/-- Embeds `RecentRequest` (handler.go 235-239). `before` is passed opaquely to
the index scan and is irrelevant to the properties proved here. -/
structure RecentRequest where
  n : Int
  before : Option Nat
  thumbnailSize : Int
deriving Repr

/-- Embeds `RecentRequest.n()` (handler.go 260-262). -/
def RecentRequest.sanitizedN (r : RecentRequest) : Int :=
  sanitizeNumResults r.n

/-- Embeds `RecentRequest.thumbnailSize()` (handler.go 264-273): 0 means no
thumbnail; a nonzero value outside [25,800] falls back to the default 50. -/
def RecentRequest.thumbSize (r : RecentRequest) : Int :=
  let v := r.thumbnailSize
  if v = 0 then 0
  else if v < minThumbSize || v > maxThumbSize then defThumbSize
  else v

/-- Embeds `WithAttrRequest` (handler.go 276-287). -/
structure WithAttrRequest where
  n : Int
  signer : BlobRef
  attr : String
  value : String
  fuzzy : Bool
  thumbnailSize : Int
deriving Repr

/-- Embeds `WithAttrRequest.n()` (handler.go 324-326). -/
def WithAttrRequest.sanitizedN (r : WithAttrRequest) : Int :=
  sanitizeNumResults r.n

/-- Embeds `WithAttrRequest.thumbnailSize()` (handler.go 328-340): 0 means no
thumbnail; a nonzero value below 25 is clamped to 25, above 800 to 800. -/
def WithAttrRequest.thumbSize (r : WithAttrRequest) : Int :=
  let v := r.thumbnailSize
  if v = 0 then 0
  else if v < minThumbSize then minThumbSize
  else if v > maxThumbSize then maxThumbSize
  else v

/-- The `N` sanitization of `WithAttrRequest.fromHTTP` (handler.go 312-320):
if a `max` form value is present it is parsed into `r.N` (a parse failure
panics and never reaches the query), otherwise `r.N` keeps its zero value;
then `r.N = r.n()`. -/
def withAttrFromHTTPN (maxParam : Option Int) : Int :=
  sanitizeNumResults (maxParam.getD 0)

/-! ## QueryGateway: dispatch (handler.go 182-224) -/

/-- The fixed set of endpoint operations reachable from `ServeHTTP`. -/
inductive Endpoint where
  | ws | recent | permanodeattr | describe | claims | files | getnamed
  | signerattrvalue | signerpaths | edgesto | query | setnamed
deriving DecidableEq, Repr

/-- The `getHandler` dispatch table (handler.go 182-193). -/
def getEndpoint (s : String) : Option Endpoint :=
  if s = "ws" then some .ws
  else if s = "recent" then some .recent
  else if s = "permanodeattr" then some .permanodeattr
  else if s = "describe" then some .describe
  else if s = "claims" then some .claims
  else if s = "files" then some .files
  else if s = "getnamed" then some .getnamed
  else if s = "signerattrvalue" then some .signerattrvalue
  else if s = "signerpaths" then some .signerpaths
  else if s = "edgesto" then some .edgesto
  else none

/-- The `postHandler` dispatch table (handler.go 195-199). -/
def postEndpoint (s : String) : Option Endpoint :=
  if s = "describe" then some .describe
  else if s = "query" then some .query
  else if s = "setnamed" then some .setnamed
  else none

/-- Outcome of `ServeHTTP`: either a dispatched endpoint handler, or the
JSON error envelope written when no handler matches. There is no
transport-level not-found outcome. -/
inductive ServeOutcome where
  | dispatched (e : Endpoint)
  | jsonError (error : String) (errorType : String)
deriving DecidableEq, Repr

/-- Embeds `strings.TrimPrefix(suffix, "camli/search/")`. -/
def trimSearchRoot (s : String) : String :=
  if s.startsWith "camli/search/" then s.drop "camli/search/".length else s

/-- Embeds `Handler.ServeHTTP` (handler.go 201-224). Modelled from the spec:
`httputil.IsGet` (repository code not under `src/`) is taken, per the
spec's dispatch description, as the method being GET; `httputil.PathSuffix`
is the request's path suffix, passed in directly. -/
def serveHTTP (method : String) (suffix : String) : ServeOutcome :=
  let key := trimSearchRoot suffix
  let fn : Option Endpoint :=
    if method = "GET" then getEndpoint key
    else if method = "POST" then postEndpoint key
    else none
  match fn with
  | some e => .dispatched e
  | none => .jsonError "Unsupported search path or method" "input"

/-! ## ClaimsAccessor (handler.go 342-360, 451-453, 473-482, 655-684) -/

/-- Embeds `camtypes.Claim`. Dates are modelled as naturals (`time.Time` values
compared by `Before`). -/
structure ClaimRec where
  blobRef : BlobRef
  signer : BlobRef
  permanode : BlobRef
  date : Nat
  claimType : String
  attr : String
  value : String
deriving DecidableEq, Repr

/-- Embeds `ClaimsItem` (handler.go 474-482), the wire form of a claim. -/
structure ClaimsItem where
  blobRef : BlobRef
  signer : BlobRef
  permanode : BlobRef
  date : Nat
  claimType : String
  attr : String
  value : String
deriving DecidableEq, Repr

/-- The per-claim conversion inside `GetClaims` (handler.go 667-678). -/
def toClaimsItem (c : ClaimRec) : ClaimsItem :=
  ⟨c.blobRef, c.signer, c.permanode, c.date, c.claimType, c.attr, c.value⟩

/-- Embeds `ClaimsRequest` (handler.go 343-349). -/
structure ClaimsRequest where
  permanode : BlobRef
  attrFilter : String
deriving Repr

/-- Embeds `ClaimsResponse` (handler.go 451-453). -/
structure ClaimsResponse where
  claims : List ClaimsItem
deriving DecidableEq, Repr

/-- Modelled from the spec: `index.AppendClaims(dst, permaNode,
signerFilter, attrFilter)` (pkg/index, not under src/) appends to `dst`
the index's claims on `permaNode`, keeping only claims whose signer is
`signerFilter` when that filter is a valid ref, and only claims on
attribute `attrFilter` when that filter is nonempty. The index's claim
store is passed in as the list `idx`. -/
def appendClaims (dst : List ClaimRec) (idx : List ClaimRec)
    (permaNode signerFilter : BlobRef) (attrFilter : String) : List ClaimRec :=
  dst ++ idx.filter (fun c =>
    c.permanode == permaNode
      && (!signerFilter.valid || c.signer == signerFilter)
      && (attrFilter == "" || c.attr == attrFilter))

/-- The ordering used by `camtypes.ClaimsByDate` (pkg/types/camtypes, not
under src/): claims are compared by date only. -/
def dateLE (a b : ClaimRec) : Prop := a.date ≤ b.date

instance : DecidableRel dateLE :=
  fun a b => inferInstanceAs (Decidable (a.date ≤ b.date))

instance : IsTotal ClaimRec dateLE :=
  ⟨fun a b => Nat.le_total a.date b.date⟩

instance : IsTrans ClaimRec dateLE :=
  ⟨fun _ _ _ => Nat.le_trans⟩

/-- The contract of the external `sort.Sort(camtypes.ClaimsByDate(claims))`
call (Go standard library, outside this repository): the result is a
permutation of the input that is sorted by claim date. Go's `sort.Sort`
documentation guarantees exactly this and explicitly states that the sort
is *not* guaranteed to be stable, so the call is modelled as an arbitrary
function satisfying this contract. -/
def SortsByDate (f : List ClaimRec → List ClaimRec) : Prop :=
  ∀ l, (f l).Perm l ∧ List.Sorted dateLE (f l)

/-- One contract-conforming implementation of the external sort (a stable
insertion sort; used to instantiate witnesses). -/
def sortClaimsByDate (l : List ClaimRec) : List ClaimRec :=
  List.insertionSort dateLE l

/-- A second contract-conforming implementation of the external sort that
is *not* stable (it reverses before sorting, so claims with equal dates
come out in reversed relative order). -/
def unstableSortByDate (l : List ClaimRec) : List ClaimRec :=
  List.insertionSort dateLE l.reverse

/-- Embeds `Handler.GetClaims` (handler.go 655-684): reject an invalid permanode
ref, fetch the owner- and attribute-filtered claims from the index, sort
them by date with the external sort, and convert to wire items. The index
claim store `idx` and the external sort `sortFn` are parameters. -/
def GetClaims (sortFn : List ClaimRec → List ClaimRec) (idx : List ClaimRec)
    (owner : BlobRef) (req : ClaimsRequest) : Except String ClaimsResponse :=
  if !req.permanode.valid then
    .error "Error getting claims: nil permanode."
  else
    let claims := appendClaims [] idx req.permanode owner req.attrFilter
    let sorted := sortFn claims
    .ok ⟨sorted.map toClaimsItem⟩

/-- Claim C4 as stated: for every contract-conforming sort, every index
content and every request, a successful `GetClaims` response is sorted by
non-decreasing date *and* stable: for each date, the response's claims
with that date appear in exactly their fetched relative order. -/
def ClaimC4Statement : Prop :=
  ∀ f, SortsByDate f → ∀ idx owner req resp,
    GetClaims f idx owner req = .ok resp →
    List.Sorted (fun a b : ClaimsItem => a.date ≤ b.date) resp.claims ∧
    ∀ d, resp.claims.filter (fun c => c.date == d) =
      ((appendClaims [] idx req.permanode owner req.attrFilter).map
        toClaimsItem).filter (fun c => c.date == d)

/-! ## Sample data used by witnesses -/

def sampleOwner : BlobRef := .blob 0

def samplePerma : BlobRef := .perma 0

/-- Two claims on the same permanode with the *same* date. -/
def sampleClaimA : ClaimRec :=
  ⟨.blob 1, sampleOwner, samplePerma, 5, "set-attribute", "tag", "a"⟩

def sampleClaimB : ClaimRec :=
  ⟨.blob 2, sampleOwner, samplePerma, 5, "set-attribute", "tag", "b"⟩

def sampleClaims : List ClaimRec := [sampleClaimA, sampleClaimB]

def sampleClaimsReq : ClaimsRequest := ⟨samplePerma, ""⟩

/-! ## Helper lemmas about the sort contract -/

theorem sortsByDate_sortClaimsByDate : SortsByDate sortClaimsByDate :=
  fun l => ⟨List.perm_insertionSort dateLE l, List.sorted_insertionSort dateLE l⟩

theorem sortsByDate_unstableSortByDate : SortsByDate unstableSortByDate :=
  fun l =>
    ⟨(List.perm_insertionSort dateLE l.reverse).trans l.reverse_perm,
     List.sorted_insertionSort dateLE l.reverse⟩

/-! ## Claim C4 -/

/-- C4 (amended): for every contract-conforming external sort, for every
index content and every request with a valid permanode ref, `GetClaims`
succeeds and its response is sorted by non-decreasing claim date. (The
stability half of C4 as stated is refuted by `C4_counterexample`.) -/
theorem C4_getClaims_sorted (f : List ClaimRec → List ClaimRec)
    (hf : SortsByDate f) (idx : List ClaimRec) (owner : BlobRef)
    (req : ClaimsRequest) (hv : req.permanode.valid = true) :
    ∃ resp, GetClaims f idx owner req = .ok resp ∧
      List.Sorted (fun a b : ClaimsItem => a.date ≤ b.date) resp.claims := by
  refine ⟨⟨(f (appendClaims [] idx req.permanode owner req.attrFilter)).map
    toClaimsItem⟩, ?_, ?_⟩
  · simp [GetClaims, hv]
  · exact List.Pairwise.map toClaimsItem (fun a b h => h)
      (hf (appendClaims [] idx req.permanode owner req.attrFilter)).2

theorem C4_getClaims_sorted_witness :
    ∃ resp, GetClaims sortClaimsByDate sampleClaims sampleOwner sampleClaimsReq
        = .ok resp ∧
      List.Sorted (fun a b : ClaimsItem => a.date ≤ b.date) resp.claims :=
  C4_getClaims_sorted sortClaimsByDate sortsByDate_sortClaimsByDate
    sampleClaims sampleOwner sampleClaimsReq (by decide)

/-- C4 counterexample: the claim as stated (sortedness *and* stability for
every contract-conforming sort) is false. `sort.Sort` is only guaranteed
to sort, and the conforming implementation `unstableSortByDate` reorders
the two equal-dated fetched claims `[sampleClaimA, sampleClaimB]`. -/
theorem C4_counterexample : ¬ ClaimC4Statement := by
  intro h
  have h2 := (h unstableSortByDate sortsByDate_unstableSortByDate sampleClaims
    sampleOwner sampleClaimsReq ⟨[toClaimsItem sampleClaimB, toClaimsItem sampleClaimA]⟩
    rfl).2 5
  exact absurd h2 (by decide)

/-! ## Claim C10 -/

/-- C10: every claim item in a successful `GetClaims` response is signed by
the handler's configured (valid) owner, because the owner ref is passed as
the signer filter to the index claim enumeration. -/
theorem C10_getClaims_owner_only (f : List ClaimRec → List ClaimRec)
    (hf : SortsByDate f) (idx : List ClaimRec) (owner : BlobRef)
    (req : ClaimsRequest) (resp : ClaimsResponse) (hov : owner.valid = true)
    (h : GetClaims f idx owner req = .ok resp) :
    ∀ it ∈ resp.claims, it.signer = owner := by
  intro it hit
  by_cases hv : req.permanode.valid
  · simp only [GetClaims, hv, Bool.not_true, Bool.false_eq_true, if_false] at h
    cases h
    obtain ⟨c, hc, rfl⟩ := List.mem_map.1 hit
    have hmem : c ∈ appendClaims [] idx req.permanode owner req.attrFilter :=
      ((hf _).1).mem_iff.1 hc
    simp only [appendClaims, List.nil_append] at hmem
    have hp := List.of_mem_filter hmem
    simp only [Bool.and_eq_true, Bool.or_eq_true, beq_iff_eq, hov,
      Bool.not_true, Bool.false_eq_true, false_or] at hp
    exact hp.1.2
  · simp [GetClaims, hv] at h

theorem C10_getClaims_owner_only_witness :
    (toClaimsItem sampleClaimA).signer = sampleOwner :=
  C10_getClaims_owner_only sortClaimsByDate sortsByDate_sortClaimsByDate
    sampleClaims sampleOwner sampleClaimsReq
    ⟨[toClaimsItem sampleClaimA, toClaimsItem sampleClaimB]⟩
    (by decide) rfl (toClaimsItem sampleClaimA) (by simp)

/-! ## Claim C6 -/

/-- C6: thumbnail size 0 yields no thumbnail for both query kinds; for the
recent query a nonzero value outside [25,800] yields the fixed default 50,
while for the by-attribute query the same nonzero out-of-range value is
clamped to the nearest bound (25 below, 800 above); in-range values pass
through unchanged in both. -/
theorem C6_thumbnail_asymmetry :
    (∀ r : RecentRequest,
      r.thumbSize =
        if r.thumbnailSize = 0 then 0
        else if r.thumbnailSize < 25 ∨ r.thumbnailSize > 800 then 50
        else r.thumbnailSize) ∧
    (∀ w : WithAttrRequest,
      w.thumbSize =
        if w.thumbnailSize = 0 then 0
        else if w.thumbnailSize < 25 then 25
        else if w.thumbnailSize > 800 then 800
        else w.thumbnailSize) := by
  constructor
  · intro r
    simp only [RecentRequest.thumbSize, minThumbSize, maxThumbSize, defThumbSize,
      Bool.or_eq_true, decide_eq_true_eq]
  · intro w
    simp only [WithAttrRequest.thumbSize, minThumbSize, maxThumbSize]

/-! ## Claim C9 -/

/-- C9: a request whose path suffix is not a registered endpoint for its
method, or whose method is neither GET (query endpoints) nor POST
(mutation endpoints), gets the JSON error envelope with errorType
"input"; `serveHTTP` has no transport-level not-found outcome. -/
theorem C9_unrouted_json_input_error (method suffix : String)
    (h : (method ≠ "GET" ∧ method ≠ "POST") ∨
      (method = "GET" ∧ getEndpoint (trimSearchRoot suffix) = none) ∨
      (method = "POST" ∧ postEndpoint (trimSearchRoot suffix) = none)) :
    serveHTTP method suffix =
      .jsonError "Unsupported search path or method" "input" := by
  rcases h with ⟨h1, h2⟩ | ⟨h1, h2⟩ | ⟨h1, h2⟩ <;>
    simp [serveHTTP, h1, h2]

theorem C9_unrouted_json_input_error_witness :
    serveHTTP "PUT" "camli/search/recent" =
      .jsonError "Unsupported search path or method" "input" :=
  C9_unrouted_json_input_error "PUT" "camli/search/recent"
    (Or.inl (by decide))

/-! ## StreamingQueryAdapter (handler.go 539-637) -/

/-- Embeds `camtypes.RecentPermanode`: one item streamed by the index's recent
scan. -/
structure RecentPermanodeRec where
  permanode : BlobRef
  signer : BlobRef
  lastModTime : Nat
deriving DecidableEq, Repr

/-- A `RecentItem` (handler.go 462-466). -/
structure RecentItem where
  blobRef : BlobRef
  modTime : Nat
  owner : BlobRef
deriving DecidableEq, Repr

/-- A `WithAttrItem` (handler.go 469-471). -/
structure WithAttrItem where
  permanode : BlobRef
deriving DecidableEq, Repr

/-- The describe meta map attached to streaming responses; its contents
come from the external describe collaborator and are opaque here. -/
def MetaMap := List (BlobRef × String)
deriving instance DecidableEq, Repr for MetaMap

/-- What an index scan produced by the time its producer goroutine
returned: the items it streamed into the channel (in emission order) and
its terminal error, delivered on the 1-capacity error channel. -/
structure ScanOutcome (α : Type) where
  items : List α
  terminalErr : Option String
deriving Repr

/-- Embeds `RecentResponse` (handler.go 413-419); the always-empty embedded
error fields are omitted. -/
structure RecentResponse where
  recent : List RecentItem
  meta : MetaMap
deriving DecidableEq, Repr

/-- Embeds `WithAttrResponse` (handler.go 432-438). -/
structure WithAttrResponse where
  withAttr : List WithAttrItem
  meta : MetaMap
deriving DecidableEq, Repr

/-- Embeds `Handler.GetRecentPermanodes` (handler.go 540-578). The index scan
(`index.GetRecentPermanodes`, given the sanitized limit `req.n()`) and the
describe-based `metaMapThumbs` are external collaborators passed as
functions. The consumer drains the stream fully (appending one
`RecentItem` per streamed result, in emission order), then checks the
error channel, then builds the thumbnail meta map. -/
def GetRecentPermanodes (scan : Int → ScanOutcome RecentPermanodeRec)
    (metaMapThumbs : Int → Except String MetaMap) (req : RecentRequest) :
    Except String RecentResponse :=
  let out := scan req.sanitizedN
  let recent := out.items.map (fun res =>
    RecentItem.mk res.permanode res.lastModTime res.signer)
  match out.terminalErr with
  | some e => .error e
  | none =>
    match metaMapThumbs req.thumbSize with
    | .error e => .error e
    | .ok m => .ok ⟨recent, m⟩

/-- The arguments `GetPermanodesWithAttr` passes to the index scan
(`camtypes.PermanodeByAttrRequest`, handler.go 603-610). -/
structure PermanodeByAttrArgs where
  attr : String
  query : String
  signer : BlobRef
  fuzzyMatch : Bool
  maxResults : Int
deriving DecidableEq, Repr

/-- Embeds `Handler.GetPermanodesWithAttr` (handler.go 595-637). Note the scan is
given `req.N` itself (sanitization happens in `fromHTTP`), the signer
defaults to the handler owner, and — unlike the recent query — the meta
map is built *before* the error channel is checked. -/
def withAttrScanArgs (owner : BlobRef) (req : WithAttrRequest) :
    PermanodeByAttrArgs :=
  ⟨req.attr, req.value, if req.signer.valid then req.signer else owner,
   req.fuzzy, req.n⟩

def GetPermanodesWithAttr (scan : PermanodeByAttrArgs → ScanOutcome BlobRef)
    (metaMapThumbs : Int → Except String MetaMap) (owner : BlobRef)
    (req : WithAttrRequest) : Except String WithAttrResponse :=
  let out := scan (withAttrScanArgs owner req)
  let withAttr := out.items.map WithAttrItem.mk
  match metaMapThumbs req.thumbSize with
  | .error e => .error e
  | .ok m =>
    match out.terminalErr with
    | some e => .error e
    | none => .ok ⟨withAttr, m⟩

/-! ## EdgeResolver (handler.go 756-827) -/

/-- Embeds `camtypes.Edge`, as consumed by `Handler.EdgesTo`: the source blob and
its type tag. -/
structure CamEdge where
  fromRef : BlobRef
  fromType : String
deriving DecidableEq, Repr

/-- An `EdgeItem` (handler.go 498-501). -/
structure EdgeItem where
  fromRef : BlobRef
  fromType : String
deriving DecidableEq, Repr

/-- The permanode part of a describe result: the current attribute map
(attribute name to list of values), as folded by the external describe
collaborator. -/
structure DescribedPermanode where
  attrs : List (String × List AVal)
deriving DecidableEq, Repr

/-- Result of `DescribeRequest.DescribeSync` on an edge source. -/
structure DescribeResult where
  permanode : Option DescribedPermanode
deriving DecidableEq, Repr

/-- Modelled from the spec: `index.IsBlobReferenceAttribute` (pkg/index,
not under src/) recognizes the attributes whose values are blob
references ("attributes recognized as blobref-valued"). -/
def isBlobReferenceAttribute (attr : String) : Bool :=
  attr == "camliContent" || attr == "camliMember" ||
    attr.startsWith "camliPath:"

/-- Embeds `EdgesResponse` (handler.go 492-495). -/
structure EdgesResponse where
  toRef : BlobRef
  edgesTo : List EdgeItem
deriving DecidableEq, Repr

/-- The body of one `verify` goroutine (handler.go 773-799): describe the
source synchronously; on success, keep the edge iff the target ref still
occurs among the source permanode's blobref-valued attribute values. -/
def verifyEdge (describe : BlobRef → Except String DescribeResult)
    (toRef : BlobRef) (e : CamEdge) : Except String (Option EdgeItem) :=
  match describe e.fromRef with
  | .error err => .error err
  | .ok db =>
    let found :=
      match db.permanode with
      | none => false
      | some p => p.attrs.any (fun av =>
          isBlobReferenceAttribute av.1 && av.2.any (fun v => v == AVal.ref toRef))
    .ok (if found then some ⟨e.fromRef, "permanode"⟩ else none)

/-- Whether a permanode source still references the target, i.e. the
verification outcome when describe succeeds (false also covers describe
failure; `verifyEdge` then errors instead). -/
def edgeStillLive (describe : BlobRef → Except String DescribeResult)
    (toRef : BlobRef) (f : BlobRef) : Bool :=
  match describe f with
  | .error _ => false
  | .ok db =>
    match db.permanode with
    | none => false
    | some p => p.attrs.any (fun av =>
        isBlobReferenceAttribute av.1 && av.2.any (fun v => v == AVal.ref toRef))

/-- The permanode-sourced edges, in dispatch order (handler.go 801-805). -/
def permaSourced (rawEdges : List CamEdge) : List CamEdge :=
  rawEdges.filter (fun e => e.fromType == "permanode")

/-- The items appended directly for non-permanode sources during the
dispatch loop, in raw-edge order (handler.go 806-812). -/
def nonPermaItems (rawEdges : List CamEdge) : List EdgeItem :=
  (rawEdges.filter (fun e => e.fromType != "permanode")).map
    (fun e => EdgeItem.mk e.fromRef e.fromType)

/-- The verification results as they arrive on the results channel: the
scheduler's completion order `completion` (a permutation of the dispatch
indices) determines arrival order. -/
def edgeResults (describe : BlobRef → Except String DescribeResult)
    (rawEdges : List CamEdge) (completion : List Nat) (toRef : BlobRef) :
    List (Except String (Option EdgeItem)) :=
  (completion.filterMap (fun i => (permaSourced rawEdges)[i]?)).map
    (verifyEdge describe toRef)

/-- The fan-in loop (handler.go 813-821): read each arriving result;
abort on the first error; append kept edges in arrival order. -/
def fanIn (results : List (Except String (Option EdgeItem)))
    (acc : List EdgeItem) : Except String (List EdgeItem) :=
  match results with
  | [] => .ok acc
  | .error e :: _ => .error e
  | .ok none :: rest => fanIn rest acc
  | .ok (some ei) :: rest => fanIn rest (acc ++ [ei])

/-- Embeds `Handler.EdgesTo` (handler.go 758-827): fetch raw edges (passed in as
`rawEdges`, the index collaborator's answer), pass non-permanode sources
through unverified, fan out one verification per permanode source, and
fan in as many results as were dispatched, in completion order. -/
def EdgesTo (describe : BlobRef → Except String DescribeResult)
    (rawEdges : List CamEdge) (completion : List Nat) (toRef : BlobRef) :
    Except String EdgesResponse :=
  match fanIn (edgeResults describe rawEdges completion toRef)
      (nonPermaItems rawEdges) with
  | .error e => .error e
  | .ok items => .ok ⟨toRef, items⟩

/-- First error among the arriving verification results, if any. -/
def firstFanInError : List (Except String (Option EdgeItem)) → Option String
  | [] => none
  | .error e :: _ => some e
  | .ok _ :: rest => firstFanInError rest

/-! ## Fan-in lemmas -/

theorem filterMap_getElem_range {α : Type} (l : List α) :
    (List.range l.length).filterMap (fun i => l[i]?) = l := by
  induction l with
  | nil => simp
  | cons a l ih =>
    rw [List.length_cons, List.range_succ_eq_map]
    simp only [List.filterMap_cons, List.getElem?_cons_zero, List.filterMap_map]
    have h2 : ((fun i => (a :: l)[i]?) ∘ Nat.succ) = fun i => l[i]? := by
      funext i
      simp
    rw [h2, ih]

theorem fanIn_ok_mem (results : List (Except String (Option EdgeItem))) :
    ∀ acc out, fanIn results acc = .ok out →
      ∀ ei, ei ∈ out ↔ ei ∈ acc ∨ Except.ok (some ei) ∈ results := by
  induction results with
  | nil =>
    intro acc out h ei
    cases h
    simp
  | cons r rest ih =>
    intro acc out h ei
    match r with
    | .error e => simp [fanIn] at h
    | .ok none =>
      rw [show fanIn (.ok none :: rest) acc = fanIn rest acc from rfl] at h
      rw [ih acc out h ei]
      simp [List.mem_cons]
    | .ok (some x) =>
      rw [show fanIn (.ok (some x) :: rest) acc = fanIn rest (acc ++ [x])
        from rfl] at h
      rw [ih (acc ++ [x]) out h ei]
      simp only [List.mem_append, List.mem_cons, List.mem_singleton,
        Except.ok.injEq, Option.some.injEq]
      tauto

theorem fanIn_firstError (results : List (Except String (Option EdgeItem))) :
    ∀ acc e, firstFanInError results = some e → fanIn results acc = .error e := by
  induction results with
  | nil => intro acc e h; simp [firstFanInError] at h
  | cons r rest ih =>
    intro acc e h
    match r with
    | .error e2 =>
      rw [show firstFanInError (.error e2 :: rest) = some e2 from rfl] at h
      cases h
      rfl
    | .ok none =>
      exact ih acc e h
    | .ok (some x) =>
      exact ih (acc ++ [x]) e h

theorem firstFanInError_of_mem (results : List (Except String (Option EdgeItem))) :
    ∀ msg : String, Except.error msg ∈ results →
      ∃ e, firstFanInError results = some e := by
  induction results with
  | nil => intro msg h; simp at h
  | cons r rest ih =>
    intro msg h
    match r with
    | .error e2 => exact ⟨e2, rfl⟩
    | .ok o =>
      rcases List.mem_cons.1 h with h1 | h1
      · cases h1
      · exact ih msg h1

theorem verifyEdge_ok_some (d : BlobRef → Except String DescribeResult)
    (toRef : BlobRef) (e : CamEdge) (ei : EdgeItem) :
    verifyEdge d toRef e = .ok (some ei) ↔
      ei = ⟨e.fromRef, "permanode"⟩ ∧ edgeStillLive d toRef e.fromRef = true := by
  rcases hd : d e.fromRef with err | db
  · simp [verifyEdge, edgeStillLive, hd]
  · rcases db with ⟨_ | p⟩
    · simp [verifyEdge, edgeStillLive, hd]
    · simp only [verifyEdge, edgeStillLive, hd]
      rcases Bool.eq_false_or_eq_true (p.attrs.any (fun av =>
          isBlobReferenceAttribute av.1 && av.2.any (fun v => v == AVal.ref toRef)))
        with hC | hC <;> simp [hC, eq_comm]

theorem mem_nonPermaItems (raw : List CamEdge) (ei : EdgeItem) :
    ei ∈ nonPermaItems raw ↔
      ∃ e, e ∈ raw ∧ e.fromType ≠ "permanode" ∧
        ei = ⟨e.fromRef, e.fromType⟩ := by
  simp only [nonPermaItems, List.mem_map, List.mem_filter, bne_iff_ne,
    ne_eq]
  constructor
  · rintro ⟨e, ⟨he, ht⟩, hei⟩
    exact ⟨e, he, ht, hei.symm⟩
  · rintro ⟨e, he, ht, hei⟩
    exact ⟨e, ⟨he, ht⟩, hei.symm⟩

theorem mem_edgeResults_ok_some (describe : BlobRef → Except String DescribeResult)
    (raw : List CamEdge) (completion : List Nat) (toRef : BlobRef)
    (ei : EdgeItem)
    (hperm : completion.Perm (List.range (permaSourced raw).length)) :
    Except.ok (some ei) ∈ edgeResults describe raw completion toRef ↔
      ∃ e, e ∈ raw ∧ e.fromType = "permanode" ∧
        verifyEdge describe toRef e = .ok (some ei) := by
  have hp2 : (completion.filterMap
      (fun i => (permaSourced raw)[i]?)).Perm (permaSourced raw) := by
    have h3 := List.Perm.filterMap (fun i => (permaSourced raw)[i]?) hperm
    rwa [filterMap_getElem_range] at h3
  rw [edgeResults, List.mem_map]
  constructor
  · rintro ⟨x, hx, hvx⟩
    have hx2 : x ∈ permaSourced raw := hp2.mem_iff.1 hx
    have hx3 := List.mem_filter.1 hx2
    exact ⟨x, hx3.1, by simpa using hx3.2, hvx⟩
  · rintro ⟨e, he, ht, hv⟩
    exact ⟨e, hp2.mem_iff.2 (List.mem_filter.2 ⟨he, by simp [ht]⟩), hv⟩

/-! ## Claim C7 -/

/-- C7: in a successful `EdgesTo` run, an item occurs in the response iff
it is a non-permanode raw edge (passed through unverified) or a
permanode-sourced raw edge whose source's current described attribute
state still contains the target ref among blobref-valued attribute
values — for every completion order of the verification tasks. In
particular a permanode edge whose referencing attribute was since
overwritten is no longer reported. -/
theorem C7_edges_filtering (describe : BlobRef → Except String DescribeResult)
    (rawEdges : List CamEdge) (completion : List Nat) (toRef : BlobRef)
    (resp : EdgesResponse)
    (hperm : completion.Perm (List.range (permaSourced rawEdges).length))
    (hok : EdgesTo describe rawEdges completion toRef = .ok resp) :
    ∀ ei : EdgeItem,
      ei ∈ resp.edgesTo ↔
        (∃ e, e ∈ rawEdges ∧ e.fromType ≠ "permanode" ∧
          ei = ⟨e.fromRef, e.fromType⟩) ∨
        (∃ e, e ∈ rawEdges ∧ e.fromType = "permanode" ∧
          ei = ⟨e.fromRef, "permanode"⟩ ∧
          edgeStillLive describe toRef e.fromRef = true) := by
  intro ei
  unfold EdgesTo at hok
  rcases hfi : fanIn (edgeResults describe rawEdges completion toRef)
      (nonPermaItems rawEdges) with e | items
  · rw [hfi] at hok; cases hok
  · rw [hfi] at hok
    injection hok with hok2
    subst hok2
    have hmem := fanIn_ok_mem _ _ _ hfi ei
    rw [show (EdgesResponse.mk toRef items).edgesTo = items from rfl, hmem,
      mem_nonPermaItems,
      mem_edgeResults_ok_some describe rawEdges completion toRef ei hperm]
    simp only [verifyEdge_ok_some]

/-! ## Sanitization helper lemmas -/

theorem sanitizeNumResults_eq (n : Int) :
    sanitizeNumResults n = if 0 < n ∧ n ≤ 1000 then n else 50 := by
  simp only [sanitizeNumResults, maxResults, defaultNumResults,
    Bool.or_eq_true, decide_eq_true_eq]
  split_ifs <;> omega

theorem sanitizeNumResults_le (n : Int) : sanitizeNumResults n ≤ 1000 := by
  rw [sanitizeNumResults_eq]
  split_ifs <;> omega

theorem sanitizeNumResults_pos (n : Int) : 0 < sanitizeNumResults n := by
  rw [sanitizeNumResults_eq]
  split_ifs <;> omega

/-! ## Claim C5 -/

/-- C5: the sanitized limit is `N` itself for `0 < N ≤ 1000` and the
default 50 otherwise; consequently, whenever the index respects the limit
it is handed, the recent query returns at most `min(N,1000)` items for
in-range `N` and at most 50 otherwise, and likewise the by-attribute
query for an `N` sanitized by its HTTP parsing. -/
theorem C5_sanitized_limits :
    (∀ n : Int, sanitizeNumResults n =
      if 0 < n ∧ n ≤ 1000 then n else 50) ∧
    (∀ (scan : Int → ScanOutcome RecentPermanodeRec)
        (mmt : Int → Except String MetaMap) (req : RecentRequest)
        (resp : RecentResponse),
      ((scan req.sanitizedN).items.length : Int) ≤ req.sanitizedN →
      GetRecentPermanodes scan mmt req = .ok resp →
      ((resp.recent.length : Int) ≤
          (if 0 < req.n ∧ req.n ≤ 1000 then req.n else 50) ∧
        (resp.recent.length : Int) ≤ 1000)) ∧
    (∀ (scan : PermanodeByAttrArgs → ScanOutcome BlobRef)
        (mmt : Int → Except String MetaMap) (owner : BlobRef)
        (req : WithAttrRequest) (resp : WithAttrResponse)
        (maxParam : Option Int),
      req.n = withAttrFromHTTPN maxParam →
      ((scan (withAttrScanArgs owner req)).items.length : Int) ≤
        (withAttrScanArgs owner req).maxResults →
      GetPermanodesWithAttr scan mmt owner req = .ok resp →
      ((resp.withAttr.length : Int) ≤
          (if 0 < maxParam.getD 0 ∧ maxParam.getD 0 ≤ 1000
            then maxParam.getD 0 else 50) ∧
        (resp.withAttr.length : Int) ≤ 1000)) := by
  refine ⟨sanitizeNumResults_eq, ?_, ?_⟩
  · intro scan mmt req resp hlim hok
    unfold GetRecentPermanodes at hok
    rcases hterr : (scan req.sanitizedN).terminalErr with _ | e
    · simp only [hterr] at hok
      rcases hmm : mmt req.thumbSize with e | m
      · simp only [hmm] at hok
        exact Except.noConfusion hok
      · simp only [hmm, Except.ok.injEq] at hok
        subst hok
        simp only [List.length_map]
        have h1 : ((scan req.sanitizedN).items.length : Int) ≤
            if 0 < req.n ∧ req.n ≤ 1000 then req.n else 50 := by
          calc ((scan req.sanitizedN).items.length : Int)
              ≤ req.sanitizedN := hlim
            _ = _ := by rw [RecentRequest.sanitizedN, sanitizeNumResults_eq]
        have h2 : ((scan req.sanitizedN).items.length : Int) ≤ 1000 :=
          le_trans hlim (sanitizeNumResults_le req.n)
        exact ⟨h1, h2⟩
    · simp only [hterr] at hok
      exact Except.noConfusion hok
  · intro scan mmt owner req resp maxParam hN hlim hok
    unfold GetPermanodesWithAttr at hok
    rcases hmm : mmt req.thumbSize with e | m
    · simp only [hmm] at hok
      exact Except.noConfusion hok
    · simp only [hmm] at hok
      rcases hterr : (scan (withAttrScanArgs owner req)).terminalErr with _ | e
      · simp only [hterr, Except.ok.injEq] at hok
        subst hok
        simp only [List.length_map]
        have hmax : (withAttrScanArgs owner req).maxResults = req.n := rfl
        rw [hmax, hN, withAttrFromHTTPN] at hlim
        constructor
        · calc ((scan (withAttrScanArgs owner req)).items.length : Int)
              ≤ sanitizeNumResults (maxParam.getD 0) := hlim
            _ = _ := sanitizeNumResults_eq _
        · exact le_trans hlim (sanitizeNumResults_le _)
      · simp only [hterr] at hok
        exact Except.noConfusion hok

/-! ## Claim C8 -/

/-- C8: error results are all-or-nothing. A recent scan that ends with an
error makes `GetRecentPermanodes` return exactly that error and no items;
a by-attribute scan error makes `GetPermanodesWithAttr` return an error
and no items (exactly the scan's error whenever the meta-map step
succeeds); a failing edge-verification task makes `EdgesTo` return the
first-arriving verification error and no partial edge list. -/
theorem C8_no_partial_results :
    (∀ (scan : Int → ScanOutcome RecentPermanodeRec)
        (mmt : Int → Except String MetaMap) (req : RecentRequest)
        (e : String),
      (scan req.sanitizedN).terminalErr = some e →
      GetRecentPermanodes scan mmt req = .error e) ∧
    (∀ (scan : PermanodeByAttrArgs → ScanOutcome BlobRef)
        (mmt : Int → Except String MetaMap) (owner : BlobRef)
        (req : WithAttrRequest) (e : String),
      (scan (withAttrScanArgs owner req)).terminalErr = some e →
      ((∃ e2, GetPermanodesWithAttr scan mmt owner req = .error e2) ∧
        ∀ m, mmt req.thumbSize = .ok m →
          GetPermanodesWithAttr scan mmt owner req = .error e)) ∧
    (∀ (describe : BlobRef → Except String DescribeResult)
        (rawEdges : List CamEdge) (completion : List Nat) (toRef : BlobRef)
        (msg : String),
      Except.error msg ∈ edgeResults describe rawEdges completion toRef →
      ∃ e, firstFanInError (edgeResults describe rawEdges completion toRef)
          = some e ∧
        EdgesTo describe rawEdges completion toRef = .error e) := by
  refine ⟨?_, ?_, ?_⟩
  · intro scan mmt req e h
    unfold GetRecentPermanodes
    simp only [h]
  · intro scan mmt owner req e h
    constructor
    · rcases hmm : mmt req.thumbSize with e1 | m
      · exact ⟨e1, by unfold GetPermanodesWithAttr; simp only [hmm]⟩
      · exact ⟨e, by unfold GetPermanodesWithAttr; simp only [hmm, h]⟩
    · intro m hmm
      unfold GetPermanodesWithAttr
      simp only [hmm, h]
  · intro describe rawEdges completion toRef msg hmem
    obtain ⟨e, he⟩ := firstFanInError_of_mem _ msg hmem
    refine ⟨e, he, ?_⟩
    unfold EdgesTo
    rw [fanIn_firstError _ (nonPermaItems rawEdges) e he]

/-! ## Concrete collaborators for witnesses -/

def okMeta : Int → Except String MetaMap := fun _ => .ok ([] : List (BlobRef × String))

def emptyRecentScan : Int → ScanOutcome RecentPermanodeRec := fun _ => ⟨[], none⟩

def emptyAttrScan : PermanodeByAttrArgs → ScanOutcome BlobRef := fun _ => ⟨[], none⟩

def errRecentScan : Int → ScanOutcome RecentPermanodeRec := fun _ => ⟨[], some "boom"⟩

def errAttrScan : PermanodeByAttrArgs → ScanOutcome BlobRef := fun _ => ⟨[], some "boom2"⟩

def errDescribe : BlobRef → Except String DescribeResult := fun _ => .error "vboom"

def c5RecentReq : RecentRequest := ⟨7, none, 0⟩

def c5AttrReq : WithAttrRequest :=
  ⟨withAttrFromHTTPN (some 2000), .zero, "tag", "x", false, 0⟩

def c8Raw : List CamEdge := [⟨.perma 2, "permanode"⟩]

theorem C8_no_partial_results_witness :
    GetRecentPermanodes errRecentScan okMeta c5RecentReq = .error "boom" ∧
    GetPermanodesWithAttr errAttrScan okMeta sampleOwner c5AttrReq
      = .error "boom2" ∧
    (∃ e, firstFanInError (edgeResults errDescribe c8Raw [0] (.content "T8"))
        = some e ∧
      EdgesTo errDescribe c8Raw [0] (.content "T8") = .error e) :=
  ⟨C8_no_partial_results.1 errRecentScan okMeta c5RecentReq "boom" rfl,
   (C8_no_partial_results.2.1 errAttrScan okMeta sampleOwner c5AttrReq "boom2"
      rfl).2 ([] : List (BlobRef × String)) rfl,
   C8_no_partial_results.2.2 errDescribe c8Raw [0] (.content "T8") "vboom"
     (by simp [edgeResults, permaSourced, c8Raw, verifyEdge, errDescribe])⟩

/-! ## Claim C5 witness -/

theorem C5_sanitized_limits_witness :
    (((([] : List RecentItem).length : Int) ≤
        (if 0 < c5RecentReq.n ∧ c5RecentReq.n ≤ 1000 then c5RecentReq.n
          else 50) ∧
      ((([] : List RecentItem).length : Int) ≤ 1000)) ∧
     ((([] : List WithAttrItem).length : Int) ≤
        (if 0 < (some (2000:Int)).getD 0 ∧ (some (2000:Int)).getD 0 ≤ 1000
          then (some (2000:Int)).getD 0 else 50) ∧
      ((([] : List WithAttrItem).length : Int) ≤ 1000))) :=
  ⟨C5_sanitized_limits.2.1 emptyRecentScan okMeta c5RecentReq ⟨[], []⟩
     (by decide) rfl,
   C5_sanitized_limits.2.2 emptyAttrScan okMeta sampleOwner c5AttrReq ⟨[], []⟩
     (some 2000) rfl (by decide) rfl⟩

/-! ## Claim C3 (evaluation at the failing input) -/

def c3Target : BlobRef := .content "T3"

/-- The post-claim describe state in which the permanode source still
references the target (so the edge is kept, isolating pure reordering
behavior). -/
def c3Describe : BlobRef → Except String DescribeResult := fun br =>
  if br = BlobRef.perma 1
    then .ok ⟨some ⟨[("camliContent", [AVal.ref c3Target])]⟩⟩
    else .ok ⟨none⟩

def c3Raw : List CamEdge := [⟨.perma 1, "permanode"⟩, ⟨.content "f", "file"⟩]

/-- C3 fails on the code: with raw index order [permanode edge, file
edge], both edges kept, and even the in-dispatch-order completion [0],
the response lists the file edge before the permanode edge — the filtered
list does not preserve the original index order (non-permanode edges are
appended during dispatch, verified edges only afterwards, in completion
order). -/
theorem C3_order_bug :
    EdgesTo c3Describe c3Raw [0] c3Target =
      .ok ⟨c3Target, [⟨.content "f", "file"⟩, ⟨.perma 1, "permanode"⟩]⟩ ∧
    c3Raw.map (fun e => EdgeItem.mk e.fromRef e.fromType) =
      [⟨.perma 1, "permanode"⟩, ⟨.content "f", "file"⟩] ∧
    ([⟨.content "f", "file"⟩, ⟨.perma 1, "permanode"⟩] : List EdgeItem) ≠
      [⟨.perma 1, "permanode"⟩, ⟨.content "f", "file"⟩] := by
  refine ⟨rfl, rfl, by decide⟩

/-! ## Claim C7 witness -/

def c7Target : BlobRef := .content "T"

/-- Describe state after the referencing attribute was overwritten by a
later claim: the source permanode's current `camliContent` points at a
different ref than the target. -/
def c7Describe : BlobRef → Except String DescribeResult := fun br =>
  if br = BlobRef.perma 0
    then .ok ⟨some ⟨[("camliContent", [AVal.ref (.content "other")])]⟩⟩
    else .ok ⟨none⟩

def c7Raw : List CamEdge := [⟨.perma 0, "permanode"⟩]

theorem C7_edges_filtering_witness :
    EdgesTo c7Describe c7Raw [0] c7Target = .ok ⟨c7Target, []⟩ ∧
    (((⟨BlobRef.perma 0, "permanode"⟩ : EdgeItem) ∈
        (EdgesResponse.mk c7Target []).edgesTo) ↔
      ((∃ e, e ∈ c7Raw ∧ e.fromType ≠ "permanode" ∧
          (⟨BlobRef.perma 0, "permanode"⟩ : EdgeItem) =
            ⟨e.fromRef, e.fromType⟩) ∨
        (∃ e, e ∈ c7Raw ∧ e.fromType = "permanode" ∧
          (⟨BlobRef.perma 0, "permanode"⟩ : EdgeItem) =
            ⟨e.fromRef, "permanode"⟩ ∧
          edgeStillLive c7Describe c7Target e.fromRef = true))) :=
  ⟨rfl,
   C7_edges_filtering c7Describe c7Raw [0] c7Target ⟨c7Target, []⟩
     (by decide) rfl ⟨BlobRef.perma 0, "permanode"⟩⟩

/-! ## NamedAliasManager (handler.go 911-1059) -/

/-- The external expression parser and raw-constraint JSON decoder (both
out-of-scope collaborators of `evalSearchInput`); only success/failure is
observed by `SetNamed`, so the parsed value is elided. -/
structure ParserConfig where
  parseExpression : String → Except String Unit
  decodeConstraintJSON : String → Except String Unit

/-- Embeds `evalSearchInput` (handler.go 911-928): an empty input is rejected; an
input delimited by braces is decoded as a raw constraint JSON document;
anything else goes through the expression parser. -/
def evalSearchInput (pc : ParserConfig) (s : String) : Except String Unit :=
  if s.length = 0 then .error "empty expression"
  else if s.startsWith "\x7b" && s.endsWith "\x7d" then
    pc.decodeConstraintJSON s
  else
    pc.parseExpression s

/-- A signed set-attribute claim as stored by the alias pipeline. Claim
dates are the list positions (claims are signed with `time.Now()` and
appended in order). -/
structure NamedClaim where
  permanode : BlobRef
  attr : String
  value : AVal
  signer : BlobRef
deriving DecidableEq, Repr

/-- The storage-and-index state the alias pipeline acts on: the stored
content blobs (content-addressed), the number of permanodes created so
far, and the append-only claim list (in date order). -/
structure NamedState where
  contents : List String
  nextPerma : Nat
  claims : List NamedClaim
deriving DecidableEq, Repr

/-- Embeds `Handler.receiveString` / `blobserver.ReceiveString` (handler.go
987-993): store a text blob; content addressing makes the ref a function
of the text and re-storing idempotent. -/
def receiveString (s : NamedState) (text : String) : NamedState × BlobRef :=
  (⟨if text ∈ s.contents then s.contents else s.contents ++ [text],
    s.nextPerma, s.claims⟩, .content text)

/-- Embeds `storageAndIndex.Fetch` followed by `ioutil.ReadAll` (handler.go
1035-1042), for text blobs. -/
def fetchBlob (s : NamedState) : BlobRef → Option String
  | .content text => if text ∈ s.contents then some text else none
  | _ => none

/-- Embeds `receiveAndSign(schema.NewUnsignedPermanode())` (handler.go 947-951):
each unsigned permanode contains a fresh random nonce, so signing and
storing it yields a fresh ref. -/
def newPermanode (s : NamedState) : NamedState × BlobRef :=
  (⟨s.contents, s.nextPerma + 1, s.claims⟩, .perma s.nextPerma)

/-- Embeds `receiveAndSign` of a `schema.NewSetAttributeClaim` builder
(handler.go 952-961, 965-985): sign with the handler owner and store; the
index sees the new claim appended (with the latest date). -/
def appendClaim (owner : BlobRef) (s : NamedState) (pn : BlobRef)
    (attr : String) (v : AVal) : NamedState :=
  ⟨s.contents, s.nextPerma, s.claims ++ [⟨pn, attr, v, owner⟩]⟩

/-- Modelled from the spec: the current attribute state of a permanode is
the fold of the owner's claims on it, last-by-date wins (spec §3); this
fold is performed by the external index/describe collaborators. -/
def currentAttr (owner : BlobRef) (s : NamedState) (pn : BlobRef)
    (attr : String) : Option AVal :=
  ((s.claims.filter (fun c =>
      c.permanode == pn && c.attr == attr && c.signer == owner)).getLast?).map
    (fun c => c.value)

/-- Modelled from the spec: the `Query` issued by `GetNamed` (handler.go
1010-1018) point-queries the index for permanodes owned by the handler's
owner whose current `camliNamedSearch` attribute equals the name;
permanodes are enumerated in creation order. -/
def queryNamed (owner : BlobRef) (s : NamedState) (name : String) :
    List BlobRef :=
  ((List.range s.nextPerma).map BlobRef.perma).filter
    (fun pn => currentAttr owner s pn "camliNamedSearch"
      == some (.plain name))

/-- Embeds `GetNamedRequest` (handler.go 389-391). -/
structure GetNamedRequest where
  named : String
deriving DecidableEq, Repr

/-- Embeds `GetNamedResponse` (handler.go 504-509). -/
structure GetNamedResponse where
  named : String
  substitute : String
  permaRef : BlobRef
  substRef : BlobRef
deriving DecidableEq, Repr

/-- Embeds `SetNamedRequest` (handler.go 398-401). -/
structure SetNamedRequest where
  named : String
  substitute : String
deriving DecidableEq, Repr

/-- Embeds `SetNamedResponse` (handler.go 512-515). -/
structure SetNamedResponse where
  permaRef : BlobRef
  substRef : BlobRef
deriving DecidableEq, Repr

/-- Embeds `Handler.GetNamed` (handler.go 1009-1046): query for the alias
permanode; take the first match; resolve its current `camliContent` to a
blob ref (`blob.Parse` fails on a missing or non-ref value); fetch that
blob's text. Read-only. -/
def GetNamed (owner : BlobRef) (s : NamedState) (r : GetNamedRequest) :
    Except String GetNamedResponse :=
  match queryNamed owner s r.named with
  | [] => .error ("No named search found for: " ++ r.named)
  | pn :: _ =>
    match currentAttr owner s pn "camliContent" with
    | some v =>
      match parseRef v with
      | some br =>
        match fetchBlob s br with
        | some text => .ok ⟨r.named, text, pn, br⟩
        | none => .error "fetch error"
      | none => .error "Invalid blob ref"
    | none => .error "Invalid blob ref"

/-- Embeds `Handler.SetNamed` (handler.go 931-963): validate the substitute,
store it as a content blob, reuse the permanode found by `GetNamed` or
create a fresh one plus its `camliNamedSearch` and `title` claims, and
always append one `camliContent` claim to the new substitute ref. -/
def SetNamed (pc : ParserConfig) (owner : BlobRef) (s0 : NamedState)
    (r : SetNamedRequest) : Except String SetNamedResponse × NamedState :=
  match evalSearchInput pc r.substitute with
  | .error e => (.error e, s0)
  | .ok _ =>
    let rs := receiveString s0 r.substitute
    let s1 := rs.1
    let sref := rs.2
    match GetNamed owner s1 ⟨r.named⟩ with
    | .ok gr =>
      let s2 := appendClaim owner s1 gr.permaRef "camliContent" (.ref sref)
      (.ok ⟨gr.permaRef, sref⟩, s2)
    | .error _ =>
      let np := newPermanode s1
      let s2 := np.1
      let pn := np.2
      let s3 := appendClaim owner s2 pn "camliNamedSearch" (.plain r.named)
      let s4 := appendClaim owner s3 pn "title"
        (.plain ("named:" ++ r.named))
      let s5 := appendClaim owner s4 pn "camliContent" (.ref sref)
      (.ok ⟨pn, sref⟩, s5)

/-- States reachable by this pipeline are well-formed: claims only
mention already-created permanodes, and every permanode currently
carrying a `camliNamedSearch` attribute also currently carries a
`camliContent` attribute that is the ref of a stored content blob. -/
def StateWF (owner : BlobRef) (s : NamedState) : Prop :=
  (∀ c ∈ s.claims, ∀ i, c.permanode = BlobRef.perma i → i < s.nextPerma) ∧
  (∀ pn v, currentAttr owner s pn "camliNamedSearch" = some v →
    ∃ t, currentAttr owner s pn "camliContent"
        = some (.ref (.content t)) ∧
      t ∈ s.contents)

/-! ## Lemmas about the alias-state operations -/

theorem currentAttr_appendClaim (owner : BlobRef) (s : NamedState)
    (pn : BlobRef) (attr : String) (v : AVal) (pn' : BlobRef)
    (attr' : String) :
    currentAttr owner (appendClaim owner s pn attr v) pn' attr' =
      if pn' = pn ∧ attr' = attr then some v
      else currentAttr owner s pn' attr' := by
  unfold currentAttr appendClaim
  simp only [List.filter_append]
  by_cases h : pn' = pn ∧ attr' = attr
  · obtain ⟨h1, h2⟩ := h
    subst h1
    subst h2
    rw [if_pos ⟨rfl, rfl⟩]
    simp [List.getLast?_concat]
  · rw [if_neg h]
    have hx : (List.filter (fun c : NamedClaim =>
        c.permanode == pn' && c.attr == attr' && c.signer == owner)
        [⟨pn, attr, v, owner⟩]) = [] := by
      rw [List.filter_eq_nil_iff]
      intro c hc
      rw [List.mem_singleton] at hc
      subst hc
      simp only [Bool.and_eq_true, beq_iff_eq]
      intro hq
      exact h ⟨hq.1.1.symm, hq.1.2.symm⟩
    rw [hx, List.append_nil]

theorem currentAttr_receiveString (owner : BlobRef) (s : NamedState)
    (text : String) (pn : BlobRef) (attr : String) :
    currentAttr owner (receiveString s text).1 pn attr =
      currentAttr owner s pn attr := rfl

theorem queryNamed_receiveString (owner : BlobRef) (s : NamedState)
    (text : String) (name : String) :
    queryNamed owner (receiveString s text).1 name =
      queryNamed owner s name := rfl

theorem currentAttr_newPermanode (owner : BlobRef) (s : NamedState)
    (pn : BlobRef) (attr : String) :
    currentAttr owner (newPermanode s).1 pn attr =
      currentAttr owner s pn attr := rfl

theorem mem_contents_receiveString (s : NamedState) (text : String) :
    text ∈ (receiveString s text).1.contents := by
  unfold receiveString
  by_cases h : text ∈ s.contents
  · simp [h]
  · simp [h]

theorem mem_contents_receiveString_mono (s : NamedState) (text x : String)
    (h : x ∈ s.contents) : x ∈ (receiveString s text).1.contents := by
  unfold receiveString
  by_cases ht : text ∈ s.contents
  · simpa [ht] using h
  · simp [ht, List.mem_append]
    exact Or.inl h

theorem queryNamed_appendClaim_ne (owner : BlobRef) (s : NamedState)
    (pn : BlobRef) (attr : String) (v : AVal) (name : String)
    (h : attr ≠ "camliNamedSearch") :
    queryNamed owner (appendClaim owner s pn attr v) name =
      queryNamed owner s name := by
  unfold queryNamed
  apply List.filter_congr
  intro x hx
  rw [currentAttr_appendClaim]
  rw [if_neg (fun hc => h hc.2.symm)]

theorem mem_queryNamed (owner : BlobRef) (s : NamedState) (name : String)
    (pn : BlobRef) (h : pn ∈ queryNamed owner s name) :
    (∃ j, pn = .perma j ∧ j < s.nextPerma) ∧
      currentAttr owner s pn "camliNamedSearch" = some (.plain name) := by
  unfold queryNamed at h
  have h1 := List.mem_of_mem_filter h
  have h2 := List.of_mem_filter h
  rw [beq_iff_eq] at h2
  refine ⟨?_, h2⟩
  obtain ⟨j, hj, hj2⟩ := List.mem_map.1 h1
  exact ⟨j, hj2.symm, List.mem_range.1 hj⟩

theorem currentAttr_appendClaim_self (owner : BlobRef) (s : NamedState)
    (pn : BlobRef) (attr : String) (v : AVal) :
    currentAttr owner (appendClaim owner s pn attr v) pn attr = some v := by
  rw [currentAttr_appendClaim, if_pos ⟨rfl, rfl⟩]

theorem currentAttr_appendClaim_ne_attr (owner : BlobRef) (s : NamedState)
    (pn : BlobRef) (attr : String) (v : AVal) (pn' : BlobRef)
    (attr' : String) (h : attr' ≠ attr) :
    currentAttr owner (appendClaim owner s pn attr v) pn' attr' =
      currentAttr owner s pn' attr' := by
  rw [currentAttr_appendClaim, if_neg (fun hc => h hc.2)]

theorem currentAttr_appendClaim_ne_pn (owner : BlobRef) (s : NamedState)
    (pn : BlobRef) (attr : String) (v : AVal) (pn' : BlobRef)
    (attr' : String) (h : pn' ≠ pn) :
    currentAttr owner (appendClaim owner s pn attr v) pn' attr' =
      currentAttr owner s pn' attr' := by
  rw [currentAttr_appendClaim, if_neg (fun hc => h hc.1)]

theorem stateWF_receiveString (owner : BlobRef) (s : NamedState)
    (text : String) (hwf : StateWF owner s) :
    StateWF owner (receiveString s text).1 := by
  constructor
  · intro c hc i hi
    exact hwf.1 c hc i hi
  · intro pn v h
    obtain ⟨t, h1, h2⟩ := hwf.2 pn v h
    exact ⟨t, h1, mem_contents_receiveString_mono s text t h2⟩

theorem getNamed_ok_of_queryNamed (owner : BlobRef) (s : NamedState)
    (name : String) (pn : BlobRef) (rest : List BlobRef)
    (hwf : StateWF owner s)
    (hq : queryNamed owner s name = pn :: rest) :
    ∃ t, currentAttr owner s pn "camliContent"
        = some (.ref (.content t)) ∧
      t ∈ s.contents ∧
      GetNamed owner s ⟨name⟩ = .ok ⟨name, t, pn, .content t⟩ := by
  have hmem : pn ∈ queryNamed owner s name := by
    rw [hq]; exact List.mem_cons_self _ _
  have hcur := (mem_queryNamed owner s name pn hmem).2
  obtain ⟨t, hct, htm⟩ := hwf.2 pn _ hcur
  refine ⟨t, hct, htm, ?_⟩
  unfold GetNamed
  simp only [hq, hct, parseRef, BlobRef.valid, fetchBlob]
  simp [htm]

theorem getNamed_error_queryNamed_nil (owner : BlobRef) (s : NamedState)
    (name : String) (e : String) (hwf : StateWF owner s)
    (h : GetNamed owner s ⟨name⟩ = .error e) :
    queryNamed owner s name = [] := by
  rcases hq : queryNamed owner s name with _ | ⟨pn, rest⟩
  · rfl
  · obtain ⟨t, _, _, hok⟩ :=
      getNamed_ok_of_queryNamed owner s name pn rest hwf hq
    rw [hok] at h
    exact Except.noConfusion h

theorem getNamed_ok_head (owner : BlobRef) (s : NamedState)
    (r : GetNamedRequest) (g : GetNamedResponse)
    (h : GetNamed owner s r = .ok g) :
    ∃ rest, queryNamed owner s r.named = g.permaRef :: rest := by
  unfold GetNamed at h
  rcases hq : queryNamed owner s r.named with _ | ⟨pn, rest⟩
  · simp only [hq] at h
    exact Except.noConfusion h
  · simp only [hq] at h
    rcases hc : currentAttr owner s pn "camliContent" with _ | v
    · simp only [hc] at h
      exact Except.noConfusion h
    · simp only [hc] at h
      rcases hp : parseRef v with _ | br
      · simp only [hp] at h
        exact Except.noConfusion h
      · simp only [hp] at h
        rcases hf : fetchBlob s br with _ | text
        · simp only [hf] at h
          exact Except.noConfusion h
        · simp only [hf, Except.ok.injEq] at h
          subst h
          exact ⟨rest, rfl⟩

/-- Master description of a successful `SetNamed`: the returned substitute
ref is the content ref of the substitute text; the resulting state is
well-formed; the alias name now resolves (first match) to the returned
permanode, whose current `camliContent` is the new substitute ref; and
the permanode is the previous first match when one existed, a fresh one
otherwise. -/
theorem setNamed_ok (pc : ParserConfig) (owner : BlobRef) (s0 : NamedState)
    (r : SetNamedRequest) (hwf : StateWF owner s0)
    (hp : evalSearchInput pc r.substitute = .ok ()) :
    ∃ pn s1 rest,
      SetNamed pc owner s0 r = (.ok ⟨pn, .content r.substitute⟩, s1) ∧
      StateWF owner s1 ∧
      queryNamed owner s1 r.named = pn :: rest ∧
      currentAttr owner s1 pn "camliContent"
        = some (.ref (.content r.substitute)) ∧
      r.substitute ∈ s1.contents ∧
      ((queryNamed owner s0 r.named = [] ∧ pn = .perma s0.nextPerma) ∨
        ∃ rest0, queryNamed owner s0 r.named = pn :: rest0) := by
  have hwf1 : StateWF owner (receiveString s0 r.substitute).1 :=
    stateWF_receiveString owner s0 r.substitute hwf
  rcases hg : GetNamed owner (receiveString s0 r.substitute).1 ⟨r.named⟩
    with e | gr
  · -- GetNamed failed: create a fresh alias permanode
    have hq0 : queryNamed owner (receiveString s0 r.substitute).1 r.named
        = [] := getNamed_error_queryNamed_nil owner _ r.named e hwf1 hg
    have hne : ∀ j, j < s0.nextPerma →
        BlobRef.perma j ≠ BlobRef.perma s0.nextPerma := by
      intro j hj hcon
      injection hcon with h2
      omega
    have hOld : ∀ pn', pn' ≠ BlobRef.perma s0.nextPerma → ∀ attr,
        currentAttr owner
          (appendClaim owner
            (appendClaim owner
              (appendClaim owner (newPermanode
                  (receiveString s0 r.substitute).1).1
                (BlobRef.perma s0.nextPerma) "camliNamedSearch"
                (.plain r.named))
              (BlobRef.perma s0.nextPerma) "title"
              (.plain ("named:" ++ r.named)))
            (BlobRef.perma s0.nextPerma) "camliContent"
            (.ref (.content r.substitute))) pn' attr =
        currentAttr owner (receiveString s0 r.substitute).1 pn' attr := by
      intro pn' hpn attr
      rw [currentAttr_appendClaim_ne_pn owner _ _ _ _ pn' attr hpn,
        currentAttr_appendClaim_ne_pn owner _ _ _ _ pn' attr hpn,
        currentAttr_appendClaim_ne_pn owner _ _ _ _ pn' attr hpn]
      exact currentAttr_newPermanode owner _ pn' attr
    have hNS : currentAttr owner
        (appendClaim owner
          (appendClaim owner
            (appendClaim owner (newPermanode
                (receiveString s0 r.substitute).1).1
              (BlobRef.perma s0.nextPerma) "camliNamedSearch"
              (.plain r.named))
            (BlobRef.perma s0.nextPerma) "title"
            (.plain ("named:" ++ r.named)))
          (BlobRef.perma s0.nextPerma) "camliContent"
          (.ref (.content r.substitute)))
        (BlobRef.perma s0.nextPerma) "camliNamedSearch"
        = some (.plain r.named) := by
      rw [currentAttr_appendClaim_ne_attr owner _ _ _ _ _ "camliNamedSearch"
          (by decide),
        currentAttr_appendClaim_ne_attr owner _ _ _ _ _ "camliNamedSearch"
          (by decide)]
      exact currentAttr_appendClaim_self owner _ _ _ _
    have hCC : currentAttr owner
        (appendClaim owner
          (appendClaim owner
            (appendClaim owner (newPermanode
                (receiveString s0 r.substitute).1).1
              (BlobRef.perma s0.nextPerma) "camliNamedSearch"
              (.plain r.named))
            (BlobRef.perma s0.nextPerma) "title"
            (.plain ("named:" ++ r.named)))
          (BlobRef.perma s0.nextPerma) "camliContent"
          (.ref (.content r.substitute)))
        (BlobRef.perma s0.nextPerma) "camliContent"
        = some (.ref (.content r.substitute)) :=
      currentAttr_appendClaim_self owner _ _ _ _
    refine ⟨BlobRef.perma s0.nextPerma,
      appendClaim owner
        (appendClaim owner
          (appendClaim owner (newPermanode
              (receiveString s0 r.substitute).1).1
            (BlobRef.perma s0.nextPerma) "camliNamedSearch"
            (.plain r.named))
          (BlobRef.perma s0.nextPerma) "title"
          (.plain ("named:" ++ r.named)))
        (BlobRef.perma s0.nextPerma) "camliContent"
        (.ref (.content r.substitute)),
      [], ?_, ?_, ?_, hCC, mem_contents_receiveString s0 r.substitute, ?_⟩
    · unfold SetNamed
      simp only [hp, hg]
      rfl
    · constructor
      · intro c hc i hi
        show i < s0.nextPerma + 1
        rcases List.mem_append.1 hc with hc1 | hc1
        · rcases List.mem_append.1 hc1 with hc2 | hc2
          · rcases List.mem_append.1 hc2 with hc3 | hc3
            · have h4 : i < s0.nextPerma := hwf1.1 c hc3 i hi
              omega
            · rw [List.mem_singleton] at hc3
              subst hc3
              injection hi with h2
              omega
          · rw [List.mem_singleton] at hc2
            subst hc2
            injection hi with h2
            omega
        · rw [List.mem_singleton] at hc1
          subst hc1
          injection hi with h2
          omega
      · intro pn' v h
        by_cases hpn : pn' = BlobRef.perma s0.nextPerma
        · subst hpn
          exact ⟨r.substitute, hCC,
            mem_contents_receiveString s0 r.substitute⟩
        · rw [hOld pn' hpn "camliNamedSearch"] at h
          obtain ⟨t, hct, htm⟩ := hwf1.2 pn' v h
          refine ⟨t, ?_, htm⟩
          rw [hOld pn' hpn "camliContent"]
          exact hct
    · show ((List.range (s0.nextPerma + 1)).map BlobRef.perma).filter _
        = [BlobRef.perma s0.nextPerma]
      rw [List.range_succ, List.map_append, List.filter_append]
      have hA : ((List.range s0.nextPerma).map BlobRef.perma).filter
          (fun pn => currentAttr owner
            (appendClaim owner
              (appendClaim owner
                (appendClaim owner (newPermanode
                    (receiveString s0 r.substitute).1).1
                  (BlobRef.perma s0.nextPerma) "camliNamedSearch"
                  (.plain r.named))
                (BlobRef.perma s0.nextPerma) "title"
                (.plain ("named:" ++ r.named)))
              (BlobRef.perma s0.nextPerma) "camliContent"
              (.ref (.content r.substitute))) pn "camliNamedSearch"
            == some (.plain r.named)) = [] := by
        rw [List.filter_eq_nil_iff]
        intro x hx
        obtain ⟨j, hj, hj2⟩ := List.mem_map.1 hx
        subst hj2
        have hjn : j < s0.nextPerma := List.mem_range.1 hj
        intro hpred
        rw [hOld (BlobRef.perma j) (hne j hjn) "camliNamedSearch"] at hpred
        exact (List.filter_eq_nil_iff.1 hq0) (BlobRef.perma j)
          (List.mem_map.2 ⟨j, List.mem_range.2 hjn, rfl⟩) hpred
      rw [hA]
      simp [hNS]
    · exact Or.inl ⟨hq0, rfl⟩
  · -- GetNamed succeeded: reuse the found alias permanode
    obtain ⟨rest, hqh0⟩ := getNamed_ok_head owner _ ⟨r.named⟩ gr hg
    have hqh : queryNamed owner (receiveString s0 r.substitute).1 r.named
        = gr.permaRef :: rest := hqh0
    have hmem : gr.permaRef ∈
        queryNamed owner (receiveString s0 r.substitute).1 r.named := by
      rw [hqh]
      exact List.mem_cons_self _ _
    refine ⟨gr.permaRef,
      appendClaim owner (receiveString s0 r.substitute).1 gr.permaRef
        "camliContent" (.ref (.content r.substitute)),
      rest, ?_, ?_, ?_,
      currentAttr_appendClaim_self owner _ _ _ _,
      mem_contents_receiveString s0 r.substitute, ?_⟩
    · unfold SetNamed
      simp only [hp, hg]
      rfl
    · constructor
      · intro c hc i hi
        show i < s0.nextPerma
        rcases List.mem_append.1 hc with hc1 | hc1
        · exact hwf1.1 c hc1 i hi
        · rw [List.mem_singleton] at hc1
          subst hc1
          obtain ⟨⟨j, hj1, hj2⟩, _⟩ :=
            mem_queryNamed owner _ r.named gr.permaRef hmem
          have hj3 : j < s0.nextPerma := hj2
          rw [hj1] at hi
          injection hi with h2
          omega
      · intro pn' v h
        rw [currentAttr_appendClaim_ne_attr owner _ _ _ _ pn'
          "camliNamedSearch" (by decide)] at h
        obtain ⟨t, hct, htm⟩ := hwf1.2 pn' v h
        by_cases hpn : pn' = gr.permaRef
        · subst hpn
          exact ⟨r.substitute, currentAttr_appendClaim_self owner _ _ _ _,
            mem_contents_receiveString s0 r.substitute⟩
        · refine ⟨t, ?_, htm⟩
          rw [currentAttr_appendClaim_ne_pn owner _ _ _ _ pn'
            "camliContent" hpn]
          exact hct
    · rw [queryNamed_appendClaim_ne owner _ _ _ _ r.named (by decide)]
      exact hqh
    · exact Or.inr ⟨rest, hqh⟩

/-! ## Claim C1 -/

/-- C1: from any well-formed state, `SetNamed(name, s)` followed by
`GetNamed(name)` returns substitute `s` and the same permanode ref, and a
repeated `SetNamed` for the same name returns that same permanode ref
(the alias permanode is created at most once and then reused). -/
theorem C1_setNamed_getNamed_roundtrip (pc : ParserConfig) (owner : BlobRef)
    (s0 : NamedState) (name subst subst2 : String)
    (hwf : StateWF owner s0)
    (h1 : evalSearchInput pc subst = .ok ())
    (h2 : evalSearchInput pc subst2 = .ok ()) :
    ∃ pn s1 s2,
      SetNamed pc owner s0 ⟨name, subst⟩ =
        (.ok ⟨pn, .content subst⟩, s1) ∧
      GetNamed owner s1 ⟨name⟩ =
        .ok ⟨name, subst, pn, .content subst⟩ ∧
      SetNamed pc owner s1 ⟨name, subst2⟩ =
        (.ok ⟨pn, .content subst2⟩, s2) := by
  obtain ⟨pn, s1, rest, hset, hwf1, hq1, hca, hmem, _⟩ :=
    setNamed_ok pc owner s0 ⟨name, subst⟩ hwf h1
  dsimp only at hset hq1 hca hmem
  have hget : GetNamed owner s1 ⟨name⟩ =
      .ok ⟨name, subst, pn, .content subst⟩ := by
    simp [GetNamed, hq1, hca, parseRef, BlobRef.valid, fetchBlob, hmem]
  obtain ⟨pn2, s2, rest2, hset2, hwf2, hq2, hca2, hmem2, hdisj⟩ :=
    setNamed_ok pc owner s1 ⟨name, subst2⟩ hwf1 h2
  dsimp only at hset2 hdisj
  have hpn2 : pn2 = pn := by
    rcases hdisj with ⟨hnil, _⟩ | ⟨rest0, hr⟩
    · rw [hq1] at hnil
      exact absurd hnil (List.cons_ne_nil _ _)
    · rw [hq1] at hr
      injection hr with h3 _
      exact h3.symm
  subst hpn2
  exact ⟨pn2, s1, s2, hset, hget, hset2⟩

/-! ## Claim C2 -/

/-- C2: when the substitute fails validation, `SetNamed` returns the parse
error and leaves the state untouched — no content blob, no permanode and
no claim is written; validation precedes every storage or signing side
effect. -/
theorem C2_setNamed_failfast (pc : ParserConfig) (owner : BlobRef)
    (s : NamedState) (r : SetNamedRequest) (e : String)
    (h : evalSearchInput pc r.substitute = .error e) :
    SetNamed pc owner s r = (.error e, s) := by
  unfold SetNamed
  simp only [h]

/-! ## Witness data for C1 and C2 -/

/-- A parser configuration accepting every expression (the parser is an
external collaborator; C1 quantifies over all of them). -/
def acceptAll : ParserConfig := ⟨fun _ => .ok (), fun _ => .ok ()⟩

def emptyNamedState : NamedState := ⟨[], 0, []⟩

def witOwner : BlobRef := .blob 7

theorem stateWF_empty (owner : BlobRef) : StateWF owner emptyNamedState := by
  constructor
  · intro c hc i _
    exact absurd hc (List.not_mem_nil c)
  · intro pn v h
    exact absurd h (by simp [currentAttr, emptyNamedState])

theorem evalSearchInput_acceptAll (s : String) (h : ¬s.length = 0) :
    evalSearchInput acceptAll s = .ok () := by
  unfold evalSearchInput
  rw [if_neg h]
  rcases Bool.eq_false_or_eq_true (s.startsWith "\x7b" && s.endsWith "\x7d")
    with hb | hb <;> simp [hb, acceptAll]

theorem C1_setNamed_getNamed_roundtrip_witness :
    ∃ pn s1 s2,
      SetNamed acceptAll witOwner emptyNamedState ⟨"bar", "is:image"⟩ =
        (.ok ⟨pn, .content "is:image"⟩, s1) ∧
      GetNamed witOwner s1 ⟨"bar"⟩ =
        .ok ⟨"bar", "is:image", pn, .content "is:image"⟩ ∧
      SetNamed acceptAll witOwner s1 ⟨"bar", "is:pano"⟩ =
        (.ok ⟨pn, .content "is:pano"⟩, s2) :=
  C1_setNamed_getNamed_roundtrip acceptAll witOwner emptyNamedState "bar"
    "is:image" "is:pano" (stateWF_empty witOwner)
    (evalSearchInput_acceptAll "is:image" (by decide))
    (evalSearchInput_acceptAll "is:pano" (by decide))

theorem C2_setNamed_failfast_witness :
    evalSearchInput acceptAll "" = .error "empty expression" ∧
    SetNamed acceptAll witOwner emptyNamedState ⟨"bar", ""⟩ =
      (.error "empty expression", emptyNamedState) :=
  ⟨rfl, C2_setNamed_failfast acceptAll witOwner emptyNamedState ⟨"bar", ""⟩
    "empty expression" rfl⟩

end Camli
